import Mathlib

/-!
Shallow embedding of the core of `chess_terminal` (a terminal chess UI in Rust).

The repository delegates chess rules to the external `chess` crate; this
development models that crate abstractly as a `Rules` record providing a
legal-move list and a move-application function on positions, which is all
the repository code consumes from it (`MoveGen::new_legal`, `Game::make_move`,
`Board::piece_on`, `Board::color_on`, `Game::side_to_move`).

The embedded code:
* `ChessGame` and its methods (`src/game/mod.rs`): `select_square`,
  `update_possible_moves`, `make_engine_move`, `set_thinking`;
* the engine bridge (`src/engine/mod.rs`): the background listener's per-line
  processing and `ChessEngine::get_move`.
-/

namespace ChessTerminal

/-- Piece kinds, as in the `chess` crate. -/
inductive Piece where
  | pawn
  | knight
  | bishop
  | rook
  | queen
  | king
deriving DecidableEq, Repr

/-- Side colors, as in the `chess` crate. -/
inductive Color where
  | white
  | black
deriving DecidableEq, Repr

/-- A board square: a rank (0-7) and a file (0-7), as in `chess::Square`. -/
structure Square where
  rank : Fin 8
  file : Fin 8
deriving DecidableEq, Repr

/-- A move: source, destination, optional promotion piece, compared by fields,
as in `chess::ChessMove`. -/
structure ChessMove where
  source : Square
  dest : Square
  promotion : Option Piece
deriving DecidableEq, Repr

/-- The piece layout and side to move of a position (`chess::Board`), with the
occupancy kept as an association list. -/
structure Board where
  pieces : List (Square × Color × Piece)
  sideToMove : Color
deriving DecidableEq, Repr

/-- `Board::piece_on`: the piece standing on a square, if any. -/
def Board.piece_on (b : Board) (s : Square) : Option Piece :=
  (b.pieces.find? (fun e => e.1 = s)).map (fun e => e.2.2)

/-- `Board::color_on`: the color of the piece standing on a square, if any. -/
def Board.color_on (b : Board) (s : Square) : Option Color :=
  (b.pieces.find? (fun e => e.1 = s)).map (fun e => e.2.1)

/-- Abstract rules engine (the `chess` crate): legal-move enumeration
(`MoveGen::new_legal`) and move application producing the next position. -/
structure Rules where
  legalMoves : Board → List ChessMove
  apply : Board → ChessMove → Board

/-- `chess::Game::make_move`: applies the move and reports `true` when it is
legal in the current position, otherwise leaves the game unchanged and
reports `false`. -/
def Rules.make_move (R : Rules) (b : Board) (m : ChessMove) : Bool × Board :=
  if m ∈ R.legalMoves b then (true, R.apply b m) else (false, b)

/-- The file letter of a square, `a`..`h`. -/
def fileChar (s : Square) : Char := Char.ofNat (97 + s.file.val)

/-- The rank digit of a square, `1`..`8`. -/
def rankChar (s : Square) : Char := Char.ofNat (49 + s.rank.val)

/-- The two-character text of a square, as printed by the `chess` crate. -/
def sqChars (s : Square) : List Char := [fileChar s, rankChar s]

/-- The lowercase letter of a piece, as printed by the `chess` crate. -/
def pieceChar : Piece → Char
  | .pawn => 'p'
  | .knight => 'n'
  | .bishop => 'b'
  | .rook => 'r'
  | .queen => 'q'
  | .king => 'k'

/-- Display text of a move (`chess::ChessMove`'s `Display`): source square,
destination square, optional promotion letter. -/
def moveStr (m : ChessMove) : String :=
  String.mk (sqChars m.source ++ sqChars m.dest ++
    (match m.promotion with
     | some p => [pieceChar p]
     | none => []))

/-- The game state held by `ChessGame` in `src/game/mod.rs`. -/
structure ChessGame where
  game : Board
  selected_square : Option Square
  possible_moves : List ChessMove
  message : String
  thinking : Bool
deriving DecidableEq, Repr

/-- `ChessGame::new`. -/
def ChessGame.new : ChessGame :=
  { game := { pieces := [], sideToMove := .white }
    selected_square := none
    possible_moves := []
    message := "Welcome to Chess Terminal! You play as White."
    thinking := false }

/-- `ChessGame::set_thinking`: stores the flag; when it is set, also
overwrites the status message. -/
def ChessGame.set_thinking (g : ChessGame) (thinking : Bool) : ChessGame :=
  let g' := { g with thinking := thinking }
  if thinking then { g' with message := "Engine is thinking..." } else g'

/-- `ChessGame::update_possible_moves`: clears the cache, then refills it with
the legal moves of the current position whose source is the selected square,
in generation order. -/
def ChessGame.update_possible_moves (R : Rules) (g : ChessGame) : ChessGame :=
  match g.selected_square with
  | some square =>
      { g with possible_moves :=
          (R.legalMoves g.game).filter (fun m => m.source = square) }
  | none => { g with possible_moves := [] }

/-- `ChessGame::select_square`: move-making and selection handling; returns
whether a move was made, paired with the updated state. -/
def ChessGame.select_square (R : Rules) (g : ChessGame) (square : Square) :
    Bool × ChessGame :=
  match g.selected_square with
  | some _ =>
      match g.possible_moves.find? (fun m => m.dest = square) with
      | some chess_move =>
          match R.make_move g.game chess_move with
          | (true, b') =>
              (true, { g with
                game := b'
                message := "Move: " ++ moveStr chess_move
                selected_square := none
                possible_moves := [] })
          | (false, _) => (false, g)
      | none =>
          match g.game.piece_on square with
          | some _ =>
              if g.game.color_on square = some g.game.sideToMove then
                (false, ChessGame.update_possible_moves R
                  { g with selected_square := some square })
              else
                (false, { g with selected_square := none, possible_moves := [] })
          | none =>
              (false, { g with selected_square := none, possible_moves := [] })
  | none =>
      match g.game.piece_on square with
      | some _ =>
          if g.game.color_on square = some g.game.sideToMove then
            (false, ChessGame.update_possible_moves R
              { g with selected_square := some square })
          else (false, g)
      | none => (false, g)

/-- `c as u8 - b'a'` with Rust release (wrapping) semantics: the code point is
truncated to a byte, then `97` is subtracted modulo 256. -/
def wrapSubA (c : Char) : Nat := (c.toNat % 256 + 256 - 97) % 256

/-- `c as u8 - b'1'` with Rust release (wrapping) semantics. -/
def wrapSub1 (c : Char) : Nat := (c.toNat % 256 + 256 - 49) % 256

/-- A square from rank and file indices (`Square::make_square` composed with
`Rank::from_index` / `File::from_index`); total via reduction mod 8, which is
the identity on the guarded in-range indices. -/
def squareOfIdx (r f : Nat) : Square :=
  ⟨⟨r % 8, Nat.mod_lt r (by decide)⟩, ⟨f % 8, Nat.mod_lt f (by decide)⟩⟩

/-- The promotion piece denoted by a fifth notation character. -/
def promOfChar : Char → Option Piece
  | 'q' => some .queen
  | 'r' => some .rook
  | 'b' => some .bishop
  | 'n' => some .knight
  | _ => none

/-- The UTF-8 byte size of a character (Rust `char::len_utf8`). -/
def utf8Size (c : Char) : Nat :=
  if c.toNat < 0x80 then 1
  else if c.toNat < 0x800 then 2
  else if c.toNat < 0x10000 then 3
  else 4

/-- Rust `str::len`: the UTF-8 byte length of the string, not its character
count. -/
def byteLen (cs : List Char) : Nat := (cs.map utf8Size).sum

/-- The promotion constraint decoded from the notation, as computed inside
`make_engine_move`'s loop: when the byte length is at least 5 the fifth
character's piece is looked up with `chars().nth(4).unwrap()`, which panics
(`none` here) when no fifth character exists; `some prom` is a completed
computation with constraint `prom`. -/
def decodedProm (cs : List Char) : Option (Option Piece) :=
  if 5 ≤ byteLen cs then
    match cs.get? 4 with
    | some c => some (promOfChar c)
    | none => none
  else some none

/-- Whether a legal move matches the decoded source, destination and
promotion constraint, exactly as tested inside `make_engine_move`'s loop. -/
def uciMatches (fromSq toSq : Square) (prom : Option Piece) (m : ChessMove) :
    Prop :=
  m.source = fromSq ∧ m.dest = toSq ∧ (prom = none ∨ m.promotion = prom)

instance (fromSq toSq : Square) (prom : Option Piece) (m : ChessMove) :
    Decidable (uciMatches fromSq toSq prom m) := by
  unfold uciMatches; infer_instance

/-- The scan of `make_engine_move` over the legal-move list. For each move
matching the decoded source and destination the loop evaluates the promotion
constraint (`promRes`; its `none` means that evaluation panics, which the
loop propagates as an overall `none`), then applies the first move that also
passes the promotion check with `Game::make_move`; a move on which
`make_move` fails is skipped. `some none` is a clean exit with no match,
`some (some (b', m))` a successful application of `m`. -/
def engineLoop (R : Rules) (b : Board) (fromSq toSq : Square)
    (promRes : Option (Option Piece)) :
    List ChessMove → Option (Option (Board × ChessMove))
  | [] => some none
  | m :: rest =>
      if m.source = fromSq ∧ m.dest = toSq then
        match promRes with
        | none => none
        | some prom =>
            if prom = none ∨ m.promotion = prom then
              match R.make_move b m with
              | (true, b') => some (some (b', m))
              | (false, _) => engineLoop R b fromSq toSq promRes rest
            else engineLoop R b fromSq toSq promRes rest
      else engineLoop R b fromSq toSq promRes rest

/-- `ChessGame::make_engine_move`: decodes a UCI move string against the
legal moves of the current position and applies the first match. The length
guards use the UTF-8 byte length, as Rust's `str::len` does, while the
character lookups are `chars().nth(i).unwrap()`; an `unwrap` of a missing
character panics, modelled by an overall `none`. A returned
`some (applied, state)` is the Rust return value paired with the state. -/
def ChessGame.make_engine_move (R : Rules) (g : ChessGame) (uci : String) :
    Option (Bool × ChessGame) :=
  if byteLen uci.data < 4 then some (false, g)
  else
    match uci.data.get? 0, uci.data.get? 1, uci.data.get? 2, uci.data.get? 3 with
    | some c0, some c1, some c2, some c3 =>
        if 8 ≤ wrapSubA c0 ∨ 8 ≤ wrapSub1 c1 ∨
            8 ≤ wrapSubA c2 ∨ 8 ≤ wrapSub1 c3 then
          some (false, g)
        else
          match engineLoop R g.game
              (squareOfIdx (wrapSub1 c1) (wrapSubA c0))
              (squareOfIdx (wrapSub1 c3) (wrapSubA c2))
              (decodedProm uci.data) (R.legalMoves g.game) with
          | some (some (b', _)) =>
              some (true, { g with
                game := b'
                message := "Engine moved: " ++ uci
                thinking := false })
          | some none => some (false, g)
          | none => none
    | _, _, _, _ => none

/-- Whether the decoding of `make_engine_move` resolves the notation to a
legal move of position `b`: the text has at least four characters, all four
decoded indices are in range, the promotion constraint is computed without a
panic, and some legal move matches source, destination and constraint. -/
def engineResolves (R : Rules) (b : Board) (uci : String) : Prop :=
  4 ≤ uci.data.length ∧
  wrapSubA (uci.data.getD 0 'x') < 8 ∧ wrapSub1 (uci.data.getD 1 'x') < 8 ∧
  wrapSubA (uci.data.getD 2 'x') < 8 ∧ wrapSub1 (uci.data.getD 3 'x') < 8 ∧
  (decodedProm uci.data).isSome = true ∧
  ∃ m ∈ R.legalMoves b,
    uciMatches (squareOfIdx (wrapSub1 (uci.data.getD 1 'x')) (wrapSubA (uci.data.getD 0 'x')))
      (squareOfIdx (wrapSub1 (uci.data.getD 3 'x')) (wrapSubA (uci.data.getD 2 'x')))
      ((decodedProm uci.data).getD none) m

instance (R : Rules) (b : Board) (uci : String) :
    Decidable (engineResolves R b uci) := by
  unfold engineResolves; infer_instance

/-- The cache contents demanded by the selection invariant: the legal moves of
the current position whose source is the selected square, in generation
order; empty when nothing is selected. -/
def cacheOf (R : Rules) (g : ChessGame) : List ChessMove :=
  match g.selected_square with
  | some square => (R.legalMoves g.game).filter (fun m => m.source = square)
  | none => []

/-- The selection invariant: the cached `possible_moves` list is in sync with
the current position and selection. -/
def InSync (R : Rules) (g : ChessGame) : Prop :=
  g.possible_moves = cacheOf R g

instance (R : Rules) (g : ChessGame) : Decidable (InSync R g) := by
  unfold InSync; infer_instance

/-! ### The engine bridge (`src/engine/mod.rs`) -/

/-- Rust `char::is_whitespace`: membership in the Unicode `White_Space`
set (tab through carriage return, space, next line, no-break space, ogham
space mark, the en-quad..hair-space range, the line and paragraph
separators, narrow no-break space, medium mathematical space, ideographic
space). -/
def isRustWhitespace (c : Char) : Bool :=
  decide (c.toNat = 0x9 ∨ c.toNat = 0xA ∨ c.toNat = 0xB ∨ c.toNat = 0xC ∨
    c.toNat = 0xD ∨ c.toNat = 0x20 ∨ c.toNat = 0x85 ∨ c.toNat = 0xA0 ∨
    c.toNat = 0x1680 ∨ (0x2000 ≤ c.toNat ∧ c.toNat ≤ 0x200A) ∨
    c.toNat = 0x2028 ∨ c.toNat = 0x2029 ∨ c.toNat = 0x202F ∨
    c.toNat = 0x205F ∨ c.toNat = 0x3000)

/-- Accumulating scanner behind `splitWhitespace`: walks the characters,
collecting the current word (reversed) in `acc` and emitting it at each
whitespace boundary and at the end. -/
def wordsAux : List Char → List Char → List String
  | [], acc => if acc = [] then [] else [String.mk acc.reverse]
  | c :: rest, acc =>
      if isRustWhitespace c then
        if acc = [] then wordsAux rest []
        else String.mk acc.reverse :: wordsAux rest []
      else wordsAux rest (c :: acc)

/-- The whitespace-delimited tokens of a line, as produced by Rust's
`split_whitespace` (empty tokens never occur). -/
def splitWhitespace (line : String) : List String := wordsAux line.data []

/-- One iteration of the background listener on a successfully read line: for
a line starting with `bestmove` whose whitespace split has a second token,
that token is sent through the channel; otherwise nothing is sent. -/
def processLine (line : String) : Option String :=
  if "bestmove".data.isPrefixOf line.data then
    if h : 2 ≤ (splitWhitespace line).length then
      some ((splitWhitespace line).get ⟨1, h⟩)
    else none
  else none

/-- The background listener over the whole output stream: read results arrive
in order, failed reads (`Err`) are skipped, and every successfully read line
is processed with `processLine`; the returned list is the sequence of strings
sent through the move channel. -/
def listenerRun : List (Except Unit String) → List String
  | [] => []
  | .error _ :: rest => listenerRun rest
  | .ok line :: rest =>
      match processLine line with
      | some tok => tok :: listenerRun rest
      | none => listenerRun rest

/-- A pipe to the child process: the lines written so far, and whether writes
fail (a broken pipe). -/
structure Pipe where
  written : List String
  broken : Bool
deriving DecidableEq, Repr

/-- A write to the pipe: appends the text, or fails when the pipe is broken. -/
def Pipe.write (p : Pipe) (s : String) : Except String Pipe :=
  if p.broken then Except.error "write failed"
  else Except.ok { p with written := p.written ++ [s] }

/-- The child process handle as the bridge sees it: an optional stdin pipe
(`None` after `take()` without restore). -/
structure Child where
  stdin : Option Pipe
deriving DecidableEq, Repr

/-- The `ChessEngine` bridge state: the optional child process. -/
structure ChessEngine where
  process : Option Child
deriving DecidableEq, Repr

/-- `ChessEngine::get_move`: when a process with an available stdin pipe
exists, writes the `position fen ...` and `go movetime 2000` commands
(propagating write failures); in every other case does nothing and
returns `Ok(())`. -/
def ChessEngine.get_move (e : ChessEngine) (fen : String) :
    Except String ChessEngine :=
  match e.process with
  | none => Except.ok e
  | some child =>
      match child.stdin with
      | none => Except.ok e
      | some pipe =>
          match pipe.write ("position fen " ++ fen ++ "\n") with
          | Except.error msg => Except.error msg
          | Except.ok pipe' =>
              match pipe'.write "go movetime 2000\n" with
              | Except.error msg => Except.error msg
              | Except.ok pipe'' =>
                  Except.ok { e with process := some { stdin := some pipe'' } }

/-! ### Concrete instances used to instantiate the theorems -/

/-- The square a1 (rank 0, file 0). -/
def sqA1 : Square := ⟨0, 0⟩

/-- The square a2 (rank 1, file 0). -/
def sqA2 : Square := ⟨1, 0⟩

/-- The square b1 (rank 0, file 1). -/
def sqB1 : Square := ⟨0, 1⟩

/-- The square a7 (rank 6, file 0). -/
def sqA7 : Square := ⟨6, 0⟩

/-- The square a8 (rank 7, file 0). -/
def sqA8 : Square := ⟨7, 0⟩

/-- The move a1-a2 without promotion. -/
def mvA1A2 : ChessMove := ⟨sqA1, sqA2, none⟩

/-- The move a1-b1 without promotion. -/
def mvA1B1 : ChessMove := ⟨sqA1, sqB1, none⟩

/-- The promotion move a7-a8=Q. -/
def mvA7A8Q : ChessMove := ⟨sqA7, sqA8, some Piece.queen⟩

/-- The promotion move a7-a8=R. -/
def mvA7A8R : ChessMove := ⟨sqA7, sqA8, some Piece.rook⟩

/-- A small board: a white rook on a1 and a white pawn on a7, white to move. -/
def boardW : Board :=
  { pieces := [(sqA1, (Color.white, Piece.rook)), (sqA7, (Color.white, Piece.pawn))]
    sideToMove := Color.white }

/-- A concrete rules engine: with white to move the legal moves are a1-a2 and
the two a7-a8 promotions; applying any move passes the turn to black, after
which there are no legal moves. -/
def rulesW : Rules :=
  { legalMoves := fun b =>
      if b.sideToMove = Color.white then [mvA1A2, mvA7A8Q, mvA7A8R] else []
    apply := fun b _ => { b with sideToMove := Color.black } }

/-- A degenerate rules engine with no legal move in any position. -/
def rulesEmpty : Rules :=
  { legalMoves := fun _ => [], apply := fun b _ => b }

/-- A concrete game on `boardW` with nothing selected and an empty cache. -/
def gameW : ChessGame :=
  { game := boardW
    selected_square := none
    possible_moves := []
    message := "w"
    thinking := true }

/-- A game with no selection but a non-empty (stale) cache, on an empty
board. -/
def gameIdleDirty : ChessGame :=
  { game := { pieces := [], sideToMove := Color.white }
    selected_square := none
    possible_moves := [mvA1A2]
    message := "d"
    thinking := false }

/-- A game with a1 selected while the cache (stale) holds the move a1-b1,
which `rulesEmpty` does not list as legal. -/
def gameSelStale : ChessGame :=
  { game := { pieces := [(sqA1, (Color.white, Piece.rook))], sideToMove := Color.white }
    selected_square := some sqA1
    possible_moves := [mvA1B1]
    message := "t"
    thinking := false }

/-- A game on `boardW` with a1 selected and a cache in sync with `rulesW`:
the only legal move from a1 is a1-a2. -/
def gameSelOk : ChessGame :=
  { game := boardW
    selected_square := some sqA1
    possible_moves := [mvA1A2]
    message := "k"
    thinking := false }

/-- A four-character, five-byte reply whose first character is U+0161
(two UTF-8 bytes, low byte equal to that of `a`): the byte length admits the
promotion branch but there is no fifth character, so the program panics at
`chars().nth(4).unwrap()` once a source/destination match is found. -/
def uciWeird : String := String.mk [Char.ofNat 353, '7', 'a', '8']

/-- A five-character reply whose first character is U+0161, outside `a`-`h`,
but whose code point truncated to a byte equals that of `a`; the fifth
character `q` exists, so no lookup panics. -/
def uciWeird5 : String := String.mk [Char.ofNat 353, '7', 'a', '8', 'q']

/-- A two-character, four-byte string: it passes the `len() < 4` byte check,
then `chars().nth(2).unwrap()` panics. -/
def uciPanic : String := String.mk [Char.ofNat 353, Char.ofNat 353]

/-! ### Helper lemmas -/

lemma length_le_byteLen (cs : List Char) : cs.length ≤ byteLen cs := by
  induction cs with
  | nil => simp [byteLen]
  | cons c rest ih =>
      have h1 : 1 ≤ utf8Size c := by
        unfold utf8Size
        split
        · omega
        · split
          · omega
          · split <;> omega
      simp only [byteLen, List.map_cons, List.sum_cons, List.length_cons]
      simp only [byteLen] at ih
      omega

lemma get?_eq_some_getD {cs : List Char} {i : Nat} (h : i < cs.length) :
    cs.get? i = some (cs.getD i 'x') := by
  rcases hg : cs.get? i with _ | c
  · rw [List.get?_eq_none] at hg
    omega
  · rw [List.getD_eq_get?, hg]
    rfl

lemma engineLoop_ne_none {R : Rules} {b : Board} {f t : Square}
    {prom : Option Piece} (ms : List ChessMove) :
    engineLoop R b f t (some prom) ms ≠ none := by
  induction ms with
  | nil => simp [engineLoop]
  | cons m rest ih =>
      by_cases hsd : m.source = f ∧ m.dest = t
      · simp only [engineLoop, if_pos hsd]
        by_cases hpm : prom = none ∨ m.promotion = prom
        · simp only [if_pos hpm]
          rcases hmm : R.make_move b m with ⟨ok, b'⟩
          cases ok
          · exact ih
          · simp
        · simp only [if_neg hpm]
          exact ih
      · simp only [engineLoop, if_neg hsd]
        exact ih

lemma engineLoop_promPanic {R : Rules} {b : Board} {f t : Square}
    {ms : List ChessMove} :
    engineLoop R b f t none ms =
      (if ∃ m ∈ ms, m.source = f ∧ m.dest = t then none else some none) := by
  induction ms with
  | nil => simp [engineLoop]
  | cons m rest ih =>
      by_cases hsd : m.source = f ∧ m.dest = t
      · simp only [engineLoop, if_pos hsd]
        rw [if_pos ⟨m, List.mem_cons_self m rest, hsd⟩]
      · simp only [engineLoop, if_neg hsd, ih]
        by_cases hex : ∃ x ∈ rest, x.source = f ∧ x.dest = t
        · obtain ⟨x, hx, hxsd⟩ := hex
          rw [if_pos ⟨x, hx, hxsd⟩,
            if_pos ⟨x, List.mem_cons_of_mem m hx, hxsd⟩]
        · rw [if_neg hex, if_neg ?_]
          rintro ⟨x, hx, hxsd⟩
          rcases List.mem_cons.mp hx with rfl | hx'
          · exact hsd hxsd
          · exact hex ⟨x, hx', hxsd⟩

lemma engineLoop_eq_clean_iff {R : Rules} {b : Board} {f t : Square}
    {prom : Option Piece} {ms : List ChessMove}
    (hsub : ∀ m ∈ ms, m ∈ R.legalMoves b) :
    engineLoop R b f t (some prom) ms = some none ↔
      ∀ m ∈ ms, ¬ uciMatches f t prom m := by
  induction ms with
  | nil => simp [engineLoop]
  | cons m rest ih =>
      have hm : m ∈ R.legalMoves b := hsub m (List.mem_cons_self m rest)
      have hrest : ∀ x ∈ rest, x ∈ R.legalMoves b :=
        fun x hx => hsub x (List.mem_cons_of_mem m hx)
      by_cases hsd : m.source = f ∧ m.dest = t
      · by_cases hpm : prom = none ∨ m.promotion = prom
        · simp only [engineLoop, if_pos hsd, if_pos hpm, Rules.make_move,
            if_pos hm]
          constructor
          · intro h
            exact absurd h (by simp)
          · intro h
            exact absurd ⟨hsd.1, hsd.2, hpm⟩ (h m (List.mem_cons_self m rest))
        · simp only [engineLoop, if_pos hsd, if_neg hpm]
          rw [ih hrest]
          constructor
          · intro h x hx
            rcases List.mem_cons.mp hx with rfl | hx'
            · rintro ⟨-, -, hc⟩
              exact hpm hc
            · exact h x hx'
          · intro h x hx
            exact h x (List.mem_cons_of_mem m hx)
      · simp only [engineLoop, if_neg hsd]
        rw [ih hrest]
        constructor
        · intro h x hx
          rcases List.mem_cons.mp hx with rfl | hx'
          · rintro ⟨hs, hd, -⟩
            exact hsd ⟨hs, hd⟩
          · exact h x hx'
        · intro h x hx
          exact h x (List.mem_cons_of_mem m hx)

lemma engineLoop_some_spec {R : Rules} {b : Board} {f t : Square}
    {promRes : Option (Option Piece)} {ms : List ChessMove} {b' : Board}
    {m : ChessMove}
    (h : engineLoop R b f t promRes ms = some (some (b', m))) :
    ∃ prom, promRes = some prom ∧ m ∈ ms ∧ uciMatches f t prom m ∧
      m ∈ R.legalMoves b ∧ b' = R.apply b m := by
  induction ms with
  | nil => simp [engineLoop] at h
  | cons x rest ih =>
      by_cases hsd : x.source = f ∧ x.dest = t
      · rcases promRes with _ | prom
        · simp [engineLoop, if_pos hsd] at h
        · by_cases hpm : prom = none ∨ x.promotion = prom
          · by_cases hleg : x ∈ R.legalMoves b
            · simp only [engineLoop, if_pos hsd, if_pos hpm, Rules.make_move,
                if_pos hleg, Option.some.injEq, Prod.mk.injEq] at h
              obtain ⟨hb, hm⟩ := h
              subst hm
              exact ⟨prom, rfl, List.mem_cons_self x rest,
                ⟨hsd.1, hsd.2, hpm⟩, hleg, hb.symm⟩
            · simp only [engineLoop, if_pos hsd, if_pos hpm, Rules.make_move,
                if_neg hleg] at h
              obtain ⟨p, hp, h1, h2, h3, h4⟩ := ih h
              exact ⟨p, hp, List.mem_cons_of_mem x h1, h2, h3, h4⟩
          · simp only [engineLoop, if_pos hsd, if_neg hpm] at h
            obtain ⟨p, hp, h1, h2, h3, h4⟩ := ih h
            exact ⟨p, hp, List.mem_cons_of_mem x h1, h2, h3, h4⟩
      · simp only [engineLoop, if_neg hsd] at h
        obtain ⟨p, hp, h1, h2, h3, h4⟩ := ih h
        exact ⟨p, hp, List.mem_cons_of_mem x h1, h2, h3, h4⟩

lemma engineLoop_exists {R : Rules} {b : Board} {f t : Square}
    {prom : Option Piece} {ms : List ChessMove}
    (hsub : ∀ m ∈ ms, m ∈ R.legalMoves b)
    (h : ∃ m ∈ ms, uciMatches f t prom m) :
    ∃ m ∈ ms, uciMatches f t prom m ∧ m ∈ R.legalMoves b ∧
      engineLoop R b f t (some prom) ms = some (some (R.apply b m, m)) := by
  rcases hloop : engineLoop R b f t (some prom) ms with _ | mo
  · exact absurd hloop (engineLoop_ne_none ms)
  · rcases mo with _ | ⟨b', m⟩
    · rw [engineLoop_eq_clean_iff hsub] at hloop
      obtain ⟨m, hm, hmatch⟩ := h
      exact absurd hmatch (hloop m hm)
    · obtain ⟨p, hp, h1, h2, h3, h4⟩ := engineLoop_some_spec hloop
      injection hp with hp'
      subst hp'
      subst h4
      exact ⟨m, h1, h2, h3, rfl⟩

lemma make_engine_move_of_resolves {R : Rules} {g : ChessGame}
    {uci : String} (h : engineResolves R g.game uci) :
    ∃ m ∈ R.legalMoves g.game,
      uciMatches
        (squareOfIdx (wrapSub1 (uci.data.getD 1 'x'))
          (wrapSubA (uci.data.getD 0 'x')))
        (squareOfIdx (wrapSub1 (uci.data.getD 3 'x'))
          (wrapSubA (uci.data.getD 2 'x')))
        ((decodedProm uci.data).getD none) m ∧
      ChessGame.make_engine_move R g uci =
        some (true, { g with
          game := R.apply g.game m
          message := "Engine moved: " ++ uci
          thinking := false }) := by
  obtain ⟨hlen, r1, r2, r3, r4, hps, hex⟩ := h
  obtain ⟨m, hm, hmatch, hleg, hloop⟩ :=
    engineLoop_exists (fun m hm => hm) hex
  refine ⟨m, hm, hmatch, ?_⟩
  have hbl : ¬ byteLen uci.data < 4 :=
    Nat.not_lt.mpr (le_trans hlen (length_le_byteLen uci.data))
  have hdp : decodedProm uci.data = some ((decodedProm uci.data).getD none) := by
    rcases hd : decodedProm uci.data with _ | p
    · rw [hd] at hps
      simp at hps
    · simp
  unfold ChessGame.make_engine_move
  rw [if_neg hbl, get?_eq_some_getD (by omega), get?_eq_some_getD (by omega),
    get?_eq_some_getD (by omega), get?_eq_some_getD (by omega)]
  dsimp only
  rw [if_neg (by push_neg; exact ⟨r1, r2, r3, r4⟩)]
  rw [← hdp] at hloop
  rw [hloop]

lemma make_engine_move_of_not_resolves {R : Rules} {g : ChessGame}
    {uci : String} (h : ¬ engineResolves R g.game uci) :
    ChessGame.make_engine_move R g uci = some (false, g) ∨
    ChessGame.make_engine_move R g uci = none := by
  unfold ChessGame.make_engine_move
  by_cases hbl : byteLen uci.data < 4
  · rw [if_pos hbl]
    exact Or.inl rfl
  · rw [if_neg hbl]
    by_cases hlen : 4 ≤ uci.data.length
    · rw [get?_eq_some_getD (by omega), get?_eq_some_getD (by omega),
        get?_eq_some_getD (by omega), get?_eq_some_getD (by omega)]
      dsimp only
      by_cases hrange : 8 ≤ wrapSubA (uci.data.getD 0 'x') ∨
          8 ≤ wrapSub1 (uci.data.getD 1 'x') ∨
          8 ≤ wrapSubA (uci.data.getD 2 'x') ∨
          8 ≤ wrapSub1 (uci.data.getD 3 'x')
      · rw [if_pos hrange]
        exact Or.inl rfl
      · rw [if_neg hrange]
        push_neg at hrange
        obtain ⟨r1, r2, r3, r4⟩ := hrange
        rcases hdp : decodedProm uci.data with _ | prom
        · rw [engineLoop_promPanic]
          by_cases hex : ∃ m ∈ R.legalMoves g.game,
              m.source = squareOfIdx (wrapSub1 (uci.data.getD 1 'x'))
                (wrapSubA (uci.data.getD 0 'x')) ∧
              m.dest = squareOfIdx (wrapSub1 (uci.data.getD 3 'x'))
                (wrapSubA (uci.data.getD 2 'x'))
          · rw [if_pos hex]
            exact Or.inr rfl
          · rw [if_neg hex]
            exact Or.inl rfl
        · have hnom : ∀ m ∈ R.legalMoves g.game,
              ¬ uciMatches
                (squareOfIdx (wrapSub1 (uci.data.getD 1 'x'))
                  (wrapSubA (uci.data.getD 0 'x')))
                (squareOfIdx (wrapSub1 (uci.data.getD 3 'x'))
                  (wrapSubA (uci.data.getD 2 'x')))
                prom m := by
            intro m hm hmatch
            refine h ⟨hlen, r1, r2, r3, r4, by rw [hdp]; rfl, m, hm, ?_⟩
            rw [hdp]
            exact hmatch
          rw [(engineLoop_eq_clean_iff (fun m hm => hm)).mpr hnom]
          exact Or.inl rfl
    · have hnone : uci.data.get? 3 = none := by
        rw [List.get?_eq_none]
        omega
      rcases h0 : uci.data.get? 0 with _ | c0 <;>
        rcases h1 : uci.data.get? 1 with _ | c1 <;>
          rcases h2 : uci.data.get? 2 with _ | c2 <;>
            rw [hnone] <;> exact Or.inr rfl

lemma color_on_some_piece_on {b : Board} {sq : Square} {c : Color}
    (h : b.color_on sq = some c) : ∃ p, b.piece_on sq = some p := by
  unfold Board.color_on at h
  unfold Board.piece_on
  rcases hf : b.pieces.find? (fun e => e.1 = sq) with _ | e
  · rw [hf] at h; simp at h
  · exact ⟨e.2.2, by rw [hf]; rfl⟩

lemma piece_on_none_color_on {b : Board} {sq : Square}
    (h : b.piece_on sq = none) : b.color_on sq = none := by
  unfold Board.piece_on at h
  unfold Board.color_on
  rcases hf : b.pieces.find? (fun e => e.1 = sq) with _ | e
  · rw [hf]; rfl
  · rw [hf] at h; simp at h

lemma update_possible_moves_eq (R : Rules) (g : ChessGame) :
    ChessGame.update_possible_moves R g = { g with possible_moves := cacheOf R g } := by
  rcases h : g.selected_square with _ | s <;>
    simp [ChessGame.update_possible_moves, cacheOf, h]

lemma select_square_move_made {R : Rules} {g : ChessGame} {s sq : Square}
    {m : ChessMove} (hsel : g.selected_square = some s)
    (hfind : g.possible_moves.find? (fun x => x.dest = sq) = some m)
    (hleg : m ∈ R.legalMoves g.game) :
    ChessGame.select_square R g sq =
      (true, { g with
        game := R.apply g.game m
        message := "Move: " ++ moveStr m
        selected_square := none
        possible_moves := [] }) := by
  unfold ChessGame.select_square
  rw [hsel]
  simp only [hfind, Rules.make_move, if_pos hleg]

lemma select_square_move_failed {R : Rules} {g : ChessGame} {s sq : Square}
    {m : ChessMove} (hsel : g.selected_square = some s)
    (hfind : g.possible_moves.find? (fun x => x.dest = sq) = some m)
    (hleg : m ∉ R.legalMoves g.game) :
    ChessGame.select_square R g sq = (false, g) := by
  unfold ChessGame.select_square
  rw [hsel]
  simp only [hfind, Rules.make_move, if_neg hleg]

lemma select_square_reselect {R : Rules} {g : ChessGame} {s sq : Square}
    (hsel : g.selected_square = some s)
    (hfind : g.possible_moves.find? (fun x => x.dest = sq) = none)
    (hown : g.game.color_on sq = some g.game.sideToMove) :
    ChessGame.select_square R g sq =
      (false, ChessGame.update_possible_moves R
        { g with selected_square := some sq }) := by
  obtain ⟨p, hp⟩ := color_on_some_piece_on hown
  unfold ChessGame.select_square
  rw [hsel]
  simp only [hfind, hp, if_pos hown]

lemma select_square_deselect {R : Rules} {g : ChessGame} {s sq : Square}
    (hsel : g.selected_square = some s)
    (hfind : g.possible_moves.find? (fun x => x.dest = sq) = none)
    (hown : ¬ g.game.color_on sq = some g.game.sideToMove) :
    ChessGame.select_square R g sq =
      (false, { g with selected_square := none, possible_moves := [] }) := by
  unfold ChessGame.select_square
  rw [hsel]
  rcases hp : g.game.piece_on sq with _ | p <;>
    simp only [hfind, hp, if_neg hown]

lemma select_square_idle_select {R : Rules} {g : ChessGame} {sq : Square}
    (hsel : g.selected_square = none)
    (hown : g.game.color_on sq = some g.game.sideToMove) :
    ChessGame.select_square R g sq =
      (false, ChessGame.update_possible_moves R
        { g with selected_square := some sq }) := by
  obtain ⟨p, hp⟩ := color_on_some_piece_on hown
  unfold ChessGame.select_square
  rw [hsel]
  simp only [hp, if_pos hown]

lemma select_square_idle_noop {R : Rules} {g : ChessGame} {sq : Square}
    (hsel : g.selected_square = none)
    (hown : ¬ g.game.color_on sq = some g.game.sideToMove) :
    ChessGame.select_square R g sq = (false, g) := by
  unfold ChessGame.select_square
  rw [hsel]
  rcases hp : g.game.piece_on sq with _ | p <;>
    simp only [hp, if_neg hown]

lemma wrapSubA_fileChar (s : Square) : wrapSubA (fileChar s) = s.file.val := by
  have h : ∀ f : Fin 8, wrapSubA (Char.ofNat (97 + f.val)) = f.val := by decide
  exact h s.file

lemma wrapSub1_rankChar (s : Square) : wrapSub1 (rankChar s) = s.rank.val := by
  have h : ∀ r : Fin 8, wrapSub1 (Char.ofNat (49 + r.val)) = r.val := by decide
  exact h s.rank

lemma squareOfIdx_roundtrip (s : Square) :
    squareOfIdx s.rank.val s.file.val = s := by
  unfold squareOfIdx
  cases s with
  | mk r f =>
      simp only [Square.mk.injEq]
      exact ⟨Fin.ext (Nat.mod_eq_of_lt r.isLt), Fin.ext (Nat.mod_eq_of_lt f.isLt)⟩

lemma ChessMove.eq_of_fields {m m' : ChessMove} (hs : m.source = m'.source)
    (hd : m.dest = m'.dest) (hp : m.promotion = m'.promotion) : m = m' := by
  cases m
  cases m'
  simp_all

lemma utf8Size_fileChar (s : Square) : utf8Size (fileChar s) = 1 := by
  have h : ∀ f : Fin 8, utf8Size (Char.ofNat (97 + f.val)) = 1 := by decide
  exact h s.file

lemma utf8Size_rankChar (s : Square) : utf8Size (rankChar s) = 1 := by
  have h : ∀ r : Fin 8, utf8Size (Char.ofNat (49 + r.val)) = 1 := by decide
  exact h s.rank

lemma utf8Size_pieceChar (p : Piece) : utf8Size (pieceChar p) = 1 := by
  cases p <;> decide

lemma byteLen_encode (s1 s2 : Square) (tail : List Char) :
    byteLen (sqChars s1 ++ sqChars s2 ++ tail) = byteLen tail + 4 := by
  show byteLen (fileChar s1 :: rankChar s1 :: fileChar s2 :: rankChar s2 :: tail)
    = byteLen tail + 4
  simp only [byteLen, List.map_cons, List.sum_cons, utf8Size_fileChar,
    utf8Size_rankChar]
  omega

lemma engineResolves_encode (R : Rules) (b : Board) (m : ChessMove)
    (tail : List Char) (promV : Option Piece) (hm : m ∈ R.legalMoves b)
    (hprom : decodedProm (sqChars m.source ++ sqChars m.dest ++ tail)
      = some promV)
    (hmv : promV = none ∨ m.promotion = promV) :
    engineResolves R b (String.mk (sqChars m.source ++ sqChars m.dest ++ tail)) := by
  have glen : (String.mk (sqChars m.source ++ sqChars m.dest ++ tail)).data.length
      = tail.length + 4 := by
    show (sqChars m.source ++ sqChars m.dest ++ tail).length = tail.length + 4
    simp [sqChars]
  have g0 : (String.mk (sqChars m.source ++ sqChars m.dest ++ tail)).data.getD 0 'x'
      = fileChar m.source := rfl
  have g1 : (String.mk (sqChars m.source ++ sqChars m.dest ++ tail)).data.getD 1 'x'
      = rankChar m.source := rfl
  have g2 : (String.mk (sqChars m.source ++ sqChars m.dest ++ tail)).data.getD 2 'x'
      = fileChar m.dest := rfl
  have g3 : (String.mk (sqChars m.source ++ sqChars m.dest ++ tail)).data.getD 3 'x'
      = rankChar m.dest := rfl
  have hdp : decodedProm (String.mk (sqChars m.source ++ sqChars m.dest ++ tail)).data
      = some promV := hprom
  refine ⟨by rw [glen]; omega, ?_, ?_, ?_, ?_, by rw [hdp]; rfl, m, hm, ?_, ?_, ?_⟩
  · rw [g0, wrapSubA_fileChar]
    exact m.source.file.isLt
  · rw [g1, wrapSub1_rankChar]
    exact m.source.rank.isLt
  · rw [g2, wrapSubA_fileChar]
    exact m.dest.file.isLt
  · rw [g3, wrapSub1_rankChar]
    exact m.dest.rank.isLt
  · rw [g1, g0, wrapSub1_rankChar, wrapSubA_fileChar, squareOfIdx_roundtrip]
  · rw [g3, g2, wrapSub1_rankChar, wrapSubA_fileChar, squareOfIdx_roundtrip]
  · rw [hdp]
    simpa using hmv

lemma inSync_update (R : Rules) (g : ChessGame) :
    InSync R (ChessGame.update_possible_moves R g) := by
  rw [update_possible_moves_eq]
  unfold InSync
  rcases h : g.selected_square with _ | s <;> simp [cacheOf, h]

lemma inSync_of_cleared {R : Rules} {g : ChessGame}
    (h1 : g.selected_square = none) (h2 : g.possible_moves = []) :
    InSync R g := by
  unfold InSync cacheOf
  rw [h1, h2]

lemma select_square_fst_true_iff (R : Rules) (g : ChessGame) (sq : Square) :
    (ChessGame.select_square R g sq).1 = true ↔
      ∃ s m, g.selected_square = some s ∧
        g.possible_moves.find? (fun x => x.dest = sq) = some m ∧
        m ∈ R.legalMoves g.game ∧
        ((ChessGame.select_square R g sq).2).game = R.apply g.game m := by
  constructor
  · intro h
    rcases hsel : g.selected_square with _ | s
    · by_cases hown : g.game.color_on sq = some g.game.sideToMove
      · rw [select_square_idle_select hsel hown] at h
        exact absurd h (by simp)
      · rw [select_square_idle_noop hsel hown] at h
        exact absurd h (by simp)
    · rcases hfind : g.possible_moves.find? (fun x => x.dest = sq) with _ | m
      · by_cases hown : g.game.color_on sq = some g.game.sideToMove
        · rw [select_square_reselect hsel hfind hown] at h
          exact absurd h (by simp)
        · rw [select_square_deselect hsel hfind hown] at h
          exact absurd h (by simp)
      · by_cases hleg : m ∈ R.legalMoves g.game
        · exact ⟨s, m, rfl, hfind, hleg,
            by rw [select_square_move_made hsel hfind hleg]⟩
        · rw [select_square_move_failed hsel hfind hleg] at h
          exact absurd h (by simp)
  · rintro ⟨s, m, hsel, hfind, hleg, -⟩
    rw [select_square_move_made hsel hfind hleg]

/-! ### Claim theorems -/

/-- C9: `set_thinking true` sets the flag and overwrites the status message
with the fixed engine-is-thinking message; `set_thinking false` sets the flag
to false and leaves the message unchanged; in both cases every other field of
the game state (position, selection, cache) is unchanged. -/
theorem c9_set_thinking (g : ChessGame) :
    ChessGame.set_thinking g true =
      { g with thinking := true, message := "Engine is thinking..." } ∧
    ChessGame.set_thinking g false = { g with thinking := false } :=
  ⟨rfl, rfl⟩

/-- C10: `get_move` on a `ChessEngine` whose process was never stored returns
`Ok(())` (here: `Except.ok` with the bridge unchanged), writing nothing. -/
theorem c10_get_move_unstarted (e : ChessEngine) (fen : String)
    (h : e.process = none) :
    ChessEngine.get_move e fen = Except.ok e := by
  unfold ChessEngine.get_move
  rw [h]

/-- Witness for C10 at a concrete never-started bridge. -/
theorem c10_get_move_unstarted_witness :
    ChessEngine.get_move { process := none } "fen" =
      Except.ok { process := none } :=
  c10_get_move_unstarted { process := none } "fen" rfl

/-- C3 counterexample: the two-character, four-byte string `uciPanic` does
not resolve to a legal move, and the program does not return false leaving
the state unchanged: the byte-length check passes and
`chars().nth(2).unwrap()` panics, so the claim fails as stated. -/
theorem c3_engine_discard_counterexample :
    ¬ engineResolves rulesW gameW.game uciPanic ∧
    ChessGame.make_engine_move rulesW gameW uciPanic = none := by
  decide

/-- C3 (amended): for every notation string that does not resolve to a legal
move of the current position, `make_engine_move` applies nothing: it either
returns false with the entire game state (position, side to move, selection,
cache, status message, thinking flag) exactly unchanged, or panics on an
index lookup that the notation's character count cannot satisfy. -/
theorem c3_engine_discard (R : Rules) (g : ChessGame) (uci : String)
    (h : ¬ engineResolves R g.game uci) :
    ChessGame.make_engine_move R g uci = some (false, g) ∨
    ChessGame.make_engine_move R g uci = none :=
  make_engine_move_of_not_resolves h

/-- Witness for C3: the notation `a1h8` matches no legal move of the concrete
position and is discarded without touching the state. -/
theorem c3_engine_discard_witness :
    ¬ engineResolves rulesW gameW.game "a1h8" ∧
    (ChessGame.make_engine_move rulesW gameW "a1h8" = some (false, gameW) ∨
      ChessGame.make_engine_move rulesW gameW "a1h8" = none) :=
  ⟨by decide, c3_engine_discard rulesW gameW "a1h8" (by decide)⟩

/-- C6: for every notation string that resolves to a legal move of the
current position, `make_engine_move` applies that move, sets the thinking
flag to false, updates the status message, and returns `true`. -/
theorem c6_engine_apply (R : Rules) (g : ChessGame) (uci : String)
    (h : engineResolves R g.game uci) :
    ∃ m ∈ R.legalMoves g.game,
      ChessGame.make_engine_move R g uci =
        some (true, { g with
          game := R.apply g.game m
          message := "Engine moved: " ++ uci
          thinking := false }) := by
  obtain ⟨m, hm, _, heq⟩ := make_engine_move_of_resolves h
  exact ⟨m, hm, heq⟩

/-- Witness for C6: the notation `a1a2` resolves on the concrete position and
is applied, clearing the thinking flag. -/
theorem c6_engine_apply_witness :
    engineResolves rulesW gameW.game "a1a2" ∧
    ∃ m ∈ rulesW.legalMoves gameW.game,
      ChessGame.make_engine_move rulesW gameW "a1a2" =
        some (true, { gameW with
          game := rulesW.apply gameW.game m
          message := "Engine moved: " ++ "a1a2"
          thinking := false }) :=
  ⟨by decide, c6_engine_apply rulesW gameW "a1a2" (by decide)⟩

/-- C2 counterexample: a `select_square` call on a state whose cached move
list is stale (it holds a move that is not legal in the current position)
returns with the cache still differing from the legal moves of the current
position from the selected square, so the claim fails as stated. -/
theorem c2_selection_invariant_counterexample :
    ¬ InSync rulesEmpty ((ChessGame.select_square rulesEmpty gameSelStale sqB1).2) := by
  decide

/-- C2 (amended): after any `select_square` call on a state whose cache was
in sync with the current position and selection, the cached `possible_moves`
list contains exactly the legal moves of the current position whose source is
the currently selected square, and is empty when no square is selected. -/
theorem c2_selection_invariant (R : Rules) (g : ChessGame) (sq : Square)
    (h : InSync R g) :
    InSync R ((ChessGame.select_square R g sq).2) := by
  rcases hsel : g.selected_square with _ | s
  · by_cases hown : g.game.color_on sq = some g.game.sideToMove
    · rw [select_square_idle_select hsel hown]
      exact inSync_update R _
    · rw [select_square_idle_noop hsel hown]
      exact h
  · rcases hfind : g.possible_moves.find? (fun x => x.dest = sq) with _ | m
    · by_cases hown : g.game.color_on sq = some g.game.sideToMove
      · rw [select_square_reselect hsel hfind hown]
        exact inSync_update R _
      · rw [select_square_deselect hsel hfind hown]
        exact inSync_of_cleared rfl rfl
    · have hm : m ∈ g.possible_moves := List.mem_of_find?_eq_some hfind
      have hsync : g.possible_moves = cacheOf R g := h
      rw [hsync] at hm
      unfold cacheOf at hm
      rw [hsel] at hm
      have hleg : m ∈ R.legalMoves g.game := (List.mem_filter.mp hm).1
      rw [select_square_move_made hsel hfind hleg]
      exact inSync_of_cleared rfl rfl

/-- Witness for C2 at a concrete in-sync state. -/
theorem c2_selection_invariant_witness :
    InSync rulesW gameW ∧
    InSync rulesW ((ChessGame.select_square rulesW gameW sqA1).2) :=
  ⟨by decide, c2_selection_invariant rulesW gameW sqA1 (by decide)⟩

/-- C1 counterexample: the first character of `uciWeird5` is U+0161, outside
`a`-`h`, yet `make_engine_move` succeeds on it, because the Rust code
truncates each character to a byte (`as u8`) before the range check; so the
claim that the decoder fails whenever a file/rank character falls outside
`a`-`h` / `1`-`8` is false as stated. -/
theorem c1_decoder_counterexample :
    'h' < uciWeird5.data.getD 0 'x' ∧
    (ChessGame.make_engine_move rulesW gameW uciWeird5).map Prod.fst
      = some true := by
  decide

/-- C1 (amended): the decoder returns `false`, applying nothing, when the
text is shorter than 4 bytes; when, the first four characters existing, any
of them truncated to its low byte falls outside the byte values of `a`-`h` /
`1`-`8`; when no legal move matches the decoded source and destination; or
when the promotion constraint is computed without a panic and no legal move
matches it together with source and destination. It panics (instead of
failing cleanly) when the byte length passes a check that the character
count cannot satisfy: at least 4 bytes but fewer than 4 characters, or a
source/destination match found with at least 5 bytes but fewer than 5
characters. And whenever it succeeds, the move it applied is a member of the
legal-move list of the current position. -/
theorem c1_decoder (R : Rules) (g : ChessGame) (uci : String) :
    (byteLen uci.data < 4 →
      ChessGame.make_engine_move R g uci = some (false, g)) ∧
    (4 ≤ uci.data.length →
      (8 ≤ wrapSubA (uci.data.getD 0 'x') ∨ 8 ≤ wrapSub1 (uci.data.getD 1 'x') ∨
        8 ≤ wrapSubA (uci.data.getD 2 'x') ∨ 8 ≤ wrapSub1 (uci.data.getD 3 'x')) →
      ChessGame.make_engine_move R g uci = some (false, g)) ∧
    (4 ≤ uci.data.length →
      wrapSubA (uci.data.getD 0 'x') < 8 → wrapSub1 (uci.data.getD 1 'x') < 8 →
      wrapSubA (uci.data.getD 2 'x') < 8 → wrapSub1 (uci.data.getD 3 'x') < 8 →
      (∀ m ∈ R.legalMoves g.game,
        ¬ (m.source = squareOfIdx (wrapSub1 (uci.data.getD 1 'x'))
              (wrapSubA (uci.data.getD 0 'x')) ∧
           m.dest = squareOfIdx (wrapSub1 (uci.data.getD 3 'x'))
              (wrapSubA (uci.data.getD 2 'x')))) →
      ChessGame.make_engine_move R g uci = some (false, g)) ∧
    (∀ prom, 4 ≤ uci.data.length →
      wrapSubA (uci.data.getD 0 'x') < 8 → wrapSub1 (uci.data.getD 1 'x') < 8 →
      wrapSubA (uci.data.getD 2 'x') < 8 → wrapSub1 (uci.data.getD 3 'x') < 8 →
      decodedProm uci.data = some prom →
      (∀ m ∈ R.legalMoves g.game,
        ¬ uciMatches
          (squareOfIdx (wrapSub1 (uci.data.getD 1 'x')) (wrapSubA (uci.data.getD 0 'x')))
          (squareOfIdx (wrapSub1 (uci.data.getD 3 'x')) (wrapSubA (uci.data.getD 2 'x')))
          prom m) →
      ChessGame.make_engine_move R g uci = some (false, g)) ∧
    (4 ≤ byteLen uci.data → uci.data.length < 4 →
      ChessGame.make_engine_move R g uci = none) ∧
    (4 ≤ uci.data.length →
      wrapSubA (uci.data.getD 0 'x') < 8 → wrapSub1 (uci.data.getD 1 'x') < 8 →
      wrapSubA (uci.data.getD 2 'x') < 8 → wrapSub1 (uci.data.getD 3 'x') < 8 →
      decodedProm uci.data = none →
      (∃ m ∈ R.legalMoves g.game,
        m.source = squareOfIdx (wrapSub1 (uci.data.getD 1 'x'))
          (wrapSubA (uci.data.getD 0 'x')) ∧
        m.dest = squareOfIdx (wrapSub1 (uci.data.getD 3 'x'))
          (wrapSubA (uci.data.getD 2 'x'))) →
      ChessGame.make_engine_move R g uci = none) ∧
    (∀ g', ChessGame.make_engine_move R g uci = some (true, g') →
      ∃ m ∈ R.legalMoves g.game, g'.game = R.apply g.game m) := by
  refine ⟨?_, ?_, ?_, ?_, ?_, ?_, ?_⟩
  · intro hbl
    unfold ChessGame.make_engine_move
    rw [if_pos hbl]
  · intro hlen hrange
    unfold ChessGame.make_engine_move
    rw [if_neg (Nat.not_lt.mpr (le_trans hlen (length_le_byteLen uci.data))),
      get?_eq_some_getD (by omega), get?_eq_some_getD (by omega),
      get?_eq_some_getD (by omega), get?_eq_some_getD (by omega)]
    dsimp only
    rw [if_pos hrange]
  · intro hlen r1 r2 r3 r4 hnom
    unfold ChessGame.make_engine_move
    rw [if_neg (Nat.not_lt.mpr (le_trans hlen (length_le_byteLen uci.data))),
      get?_eq_some_getD (by omega), get?_eq_some_getD (by omega),
      get?_eq_some_getD (by omega), get?_eq_some_getD (by omega)]
    dsimp only
    rw [if_neg (by push_neg; exact ⟨r1, r2, r3, r4⟩)]
    rcases hdp : decodedProm uci.data with _ | prom
    · rw [engineLoop_promPanic, if_neg ?_]
      rintro ⟨m, hm, hsd⟩
      exact hnom m hm hsd
    · rw [(engineLoop_eq_clean_iff (fun m hm => hm)).mpr ?_]
      intro m hm hmatch
      exact hnom m hm ⟨hmatch.1, hmatch.2.1⟩
  · intro prom hlen r1 r2 r3 r4 hdp hnom
    unfold ChessGame.make_engine_move
    rw [if_neg (Nat.not_lt.mpr (le_trans hlen (length_le_byteLen uci.data))),
      get?_eq_some_getD (by omega), get?_eq_some_getD (by omega),
      get?_eq_some_getD (by omega), get?_eq_some_getD (by omega)]
    dsimp only
    rw [if_neg (by push_neg; exact ⟨r1, r2, r3, r4⟩), hdp,
      (engineLoop_eq_clean_iff (fun m hm => hm)).mpr hnom]
  · intro hbl hlen
    unfold ChessGame.make_engine_move
    rw [if_neg (Nat.not_lt.mpr hbl)]
    have hnone : uci.data.get? 3 = none := by
      rw [List.get?_eq_none]
      omega
    rcases h0 : uci.data.get? 0 with _ | c0 <;>
      rcases h1 : uci.data.get? 1 with _ | c1 <;>
        rcases h2 : uci.data.get? 2 with _ | c2 <;>
          rw [hnone]
  · intro hlen r1 r2 r3 r4 hdp hex
    unfold ChessGame.make_engine_move
    rw [if_neg (Nat.not_lt.mpr (le_trans hlen (length_le_byteLen uci.data))),
      get?_eq_some_getD (by omega), get?_eq_some_getD (by omega),
      get?_eq_some_getD (by omega), get?_eq_some_getD (by omega)]
    dsimp only
    rw [if_neg (by push_neg; exact ⟨r1, r2, r3, r4⟩), hdp,
      engineLoop_promPanic, if_pos hex]
  · intro g' htrue
    by_cases hres : engineResolves R g.game uci
    · obtain ⟨m, hm, -, heq⟩ := make_engine_move_of_resolves hres
      rw [heq] at htrue
      injection htrue with htrue'
      injection htrue' with hfst hsnd
      exact ⟨m, hm, by rw [← hsnd]⟩
    · rcases make_engine_move_of_not_resolves hres with hd | hd <;>
        rw [hd] at htrue <;> exact absurd htrue (by simp)

/-- Witness for C1, exercising all seven conjuncts at concrete inputs. -/
theorem c1_decoder_witness :
    ChessGame.make_engine_move rulesW gameW "a1" = some (false, gameW) ∧
    ChessGame.make_engine_move rulesW gameW "z1a2" = some (false, gameW) ∧
    ChessGame.make_engine_move rulesW gameW "a1h8" = some (false, gameW) ∧
    ChessGame.make_engine_move rulesW gameW "a7a8n" = some (false, gameW) ∧
    ChessGame.make_engine_move rulesW gameW uciPanic = none ∧
    ChessGame.make_engine_move rulesW gameW uciWeird = none ∧
    ∃ m ∈ rulesW.legalMoves gameW.game,
      ({ gameW with
          game := rulesW.apply gameW.game mvA1A2
          message := "Engine moved: " ++ "a1a2"
          thinking := false } : ChessGame).game = rulesW.apply gameW.game m :=
  ⟨(c1_decoder rulesW gameW "a1").1 (by decide),
   (c1_decoder rulesW gameW "z1a2").2.1 (by decide) (by decide),
   (c1_decoder rulesW gameW "a1h8").2.2.1 (by decide) (by decide) (by decide)
     (by decide) (by decide) (by decide),
   (c1_decoder rulesW gameW "a7a8n").2.2.2.1 (some Piece.knight) (by decide)
     (by decide) (by decide) (by decide) (by decide) (by decide) (by decide),
   (c1_decoder rulesW gameW uciPanic).2.2.2.2.1 (by decide) (by decide),
   (c1_decoder rulesW gameW uciWeird).2.2.2.2.2.1 (by decide) (by decide)
     (by decide) (by decide) (by decide) (by decide) (by decide),
   (c1_decoder rulesW gameW "a1a2").2.2.2.2.2.2 _ (by decide)⟩

/-- C4 counterexample: a state where a square is selected and the clicked
square is the destination of a cached move, yet `select_square` returns
`false` (and applies nothing), because the cached move is stale and not legal
in the current position; so the claim fails as stated. -/
theorem c4_click_destination_counterexample :
    gameSelStale.selected_square.isSome ∧
    (∃ m ∈ gameSelStale.possible_moves, m.dest = sqB1) ∧
    (ChessGame.select_square rulesEmpty gameSelStale sqB1).1 = false := by
  decide

/-- C4 (amended): in every state whose cache is in sync with the current
position and selection, if a square is selected and the clicked square
equals the destination of some cached move, `select_square` applies the
first such cached move, clears the selection and the cache, updates the
status message, and returns `true`; and in general `select_square` returns
`true` exactly when a cached legal move was applied. -/
theorem c4_click_destination (R : Rules) (g : ChessGame) (sq : Square)
    (hsel : g.selected_square.isSome) (hsync : InSync R g)
    (hdest : ∃ m ∈ g.possible_moves, m.dest = sq) :
    (∃ m, g.possible_moves.find? (fun x => x.dest = sq) = some m ∧
      ChessGame.select_square R g sq =
        (true, { g with
          game := R.apply g.game m
          message := "Move: " ++ moveStr m
          selected_square := none
          possible_moves := [] })) ∧
    ∀ (g' : ChessGame) (sq' : Square),
      (ChessGame.select_square R g' sq').1 = true ↔
        ∃ s m, g'.selected_square = some s ∧
          g'.possible_moves.find? (fun x => x.dest = sq') = some m ∧
          m ∈ R.legalMoves g'.game ∧
          ((ChessGame.select_square R g' sq').2).game = R.apply g'.game m := by
  constructor
  · obtain ⟨s, hs⟩ := Option.isSome_iff_exists.mp hsel
    have hfs : (g.possible_moves.find? (fun x => x.dest = sq)).isSome := by
      rw [List.find?_isSome]
      obtain ⟨m, hm, hd⟩ := hdest
      exact ⟨m, hm, by simp [hd]⟩
    obtain ⟨m, hfind⟩ := Option.isSome_iff_exists.mp hfs
    have hmem : m ∈ g.possible_moves := List.mem_of_find?_eq_some hfind
    have hsync' : g.possible_moves = cacheOf R g := hsync
    rw [hsync'] at hmem
    unfold cacheOf at hmem
    rw [hs] at hmem
    have hleg : m ∈ R.legalMoves g.game := (List.mem_filter.mp hmem).1
    exact ⟨m, hfind, select_square_move_made hs hfind hleg⟩
  · intro g' sq'
    exact select_square_fst_true_iff R g' sq'

/-- Witness for C4 at a concrete in-sync state with a1 selected. -/
theorem c4_click_destination_witness :
    ∃ m, gameSelOk.possible_moves.find? (fun x => x.dest = sqA2) = some m ∧
      ChessGame.select_square rulesW gameSelOk sqA2 =
        (true, { gameSelOk with
          game := rulesW.apply gameSelOk.game m
          message := "Move: " ++ moveStr m
          selected_square := none
          possible_moves := [] }) :=
  (c4_click_destination rulesW gameSelOk sqA2 (by decide) (by decide)
    (by decide)).1

/-- C7 counterexample: with nothing selected, a stale non-empty cache and a
click on an empty square, the call is a no-op, so the selection stays `None`
but the cache is not cleared; the claim's "None otherwise (with the cache
cleared)" fails as stated. -/
theorem c7_select_not_destination_counterexample :
    (∀ m ∈ gameIdleDirty.possible_moves, m.dest ≠ sqB1) ∧
    ((ChessGame.select_square rulesEmpty gameIdleDirty sqB1).2).selected_square
      = none ∧
    ((ChessGame.select_square rulesEmpty gameIdleDirty sqB1).2).possible_moves
      ≠ [] := by
  decide

/-- C7 (amended): for every `select_square` call where the clicked square is
not the destination of any cached move: afterwards the selected square is
`some square` with the cache recomputed for it when the square holds a piece
of the side to move; otherwise the selection is `None`, with the cache
cleared when a square was previously selected, and the call a no-op when
nothing was selected. -/
theorem c7_select_not_destination (R : Rules) (g : ChessGame) (sq : Square)
    (hnd : ∀ m ∈ g.possible_moves, m.dest ≠ sq) :
    (g.game.color_on sq = some g.game.sideToMove →
      ChessGame.select_square R g sq =
        (false, { g with
          selected_square := some sq
          possible_moves :=
            (R.legalMoves g.game).filter (fun m => m.source = sq) })) ∧
    (¬ g.game.color_on sq = some g.game.sideToMove →
      (g.selected_square.isSome →
        ChessGame.select_square R g sq =
          (false, { g with selected_square := none, possible_moves := [] })) ∧
      (g.selected_square = none →
        ChessGame.select_square R g sq = (false, g))) := by
  have hfind : g.possible_moves.find? (fun x => x.dest = sq) = none := by
    rw [List.find?_eq_none]
    intro x hx
    simpa using hnd x hx
  refine ⟨?_, ?_⟩
  · intro hown
    rcases hsel : g.selected_square with _ | s
    · rw [select_square_idle_select hsel hown, update_possible_moves_eq]
      rfl
    · rw [select_square_reselect hsel hfind hown, update_possible_moves_eq]
      rfl
  · intro hown
    constructor
    · intro hsome
      obtain ⟨s, hs⟩ := Option.isSome_iff_exists.mp hsome
      exact select_square_deselect hs hfind hown
    · intro hnone
      exact select_square_idle_noop hnone hown

/-- Witness for C7: selecting the white rook's square from the idle state. -/
theorem c7_select_not_destination_witness :
    (∀ m ∈ gameW.possible_moves, m.dest ≠ sqA1) ∧
    ChessGame.select_square rulesW gameW sqA1 =
      (false, { gameW with
        selected_square := some sqA1
        possible_moves :=
          (rulesW.legalMoves gameW.game).filter (fun m => m.source = sqA1) }) :=
  ⟨by decide,
   (c7_select_not_destination rulesW gameW sqA1 (by decide)).1 (by decide)⟩

/-- C5: for a pair of legal moves sharing source and destination but
differing in promotion piece, the four-character notation (no suffix) is
accepted and matches a legal move with that source and destination despite
the missing suffix, while the five-character notation whose suffix is a
promotion letter resolves to the move with exactly that promotion piece. -/
theorem c5_promotion_matching (R : Rules) (g : ChessGame)
    (m1 m2 : ChessMove) (p : Piece)
    (h1 : m1 ∈ R.legalMoves g.game) (h2 : m2 ∈ R.legalMoves g.game)
    (hsrc : m2.source = m1.source) (hdst : m2.dest = m1.dest)
    (hne : m1.promotion ≠ m2.promotion)
    (hp : m1.promotion = some p)
    (hletter : promOfChar (pieceChar p) = some p) :
    ((∃ g', ChessGame.make_engine_move R g
        (String.mk (sqChars m1.source ++ sqChars m1.dest)) = some (true, g') ∧
      ∃ m ∈ R.legalMoves g.game, m.source = m1.source ∧ m.dest = m1.dest ∧
        g'.game = R.apply g.game m)) ∧
    ChessGame.make_engine_move R g
        (String.mk (sqChars m1.source ++ sqChars m1.dest ++ [pieceChar p])) =
      some (true, { g with
        game := R.apply g.game m1
        message := "Engine moved: " ++
          String.mk (sqChars m1.source ++ sqChars m1.dest ++ [pieceChar p])
        thinking := false }) := by
  constructor
  · have hprom4 : decodedProm (sqChars m1.source ++ sqChars m1.dest ++
        ([] : List Char)) = some none := by
      unfold decodedProm
      rw [if_neg (by rw [byteLen_encode]; decide)]
    have hres4 : engineResolves R g.game
        (String.mk (sqChars m1.source ++ sqChars m1.dest)) := by
      have henc := engineResolves_encode R g.game m1 [] none h1 hprom4 (Or.inl rfl)
      rwa [List.append_nil] at henc
    obtain ⟨m, hm, hmatch, heq⟩ := make_engine_move_of_resolves hres4
    have hfrom : squareOfIdx
        (wrapSub1 ((String.mk (sqChars m1.source ++ sqChars m1.dest)).data.getD 1 'x'))
        (wrapSubA ((String.mk (sqChars m1.source ++ sqChars m1.dest)).data.getD 0 'x'))
        = m1.source := by
      show squareOfIdx (wrapSub1 (rankChar m1.source)) (wrapSubA (fileChar m1.source))
        = m1.source
      rw [wrapSub1_rankChar, wrapSubA_fileChar, squareOfIdx_roundtrip]
    have hto : squareOfIdx
        (wrapSub1 ((String.mk (sqChars m1.source ++ sqChars m1.dest)).data.getD 3 'x'))
        (wrapSubA ((String.mk (sqChars m1.source ++ sqChars m1.dest)).data.getD 2 'x'))
        = m1.dest := by
      show squareOfIdx (wrapSub1 (rankChar m1.dest)) (wrapSubA (fileChar m1.dest))
        = m1.dest
      rw [wrapSub1_rankChar, wrapSubA_fileChar, squareOfIdx_roundtrip]
    obtain ⟨ms, md, -⟩ := hmatch
    exact ⟨_, heq, m, hm, ms.trans hfrom, md.trans hto, rfl⟩
  · have hbl5 : byteLen (sqChars m1.source ++ sqChars m1.dest ++ [pieceChar p])
        = 5 := by
      rw [byteLen_encode]
      simp [byteLen, utf8Size_pieceChar]
    have hprom5 : decodedProm
        (String.mk (sqChars m1.source ++ sqChars m1.dest ++ [pieceChar p])).data
        = some (some p) := by
      show decodedProm (sqChars m1.source ++ sqChars m1.dest ++ [pieceChar p])
        = some (some p)
      unfold decodedProm
      rw [if_pos (by rw [hbl5])]
      show some (promOfChar (pieceChar p)) = some (some p)
      rw [hletter]
    have hres5 : engineResolves R g.game
        (String.mk (sqChars m1.source ++ sqChars m1.dest ++ [pieceChar p])) :=
      engineResolves_encode R g.game m1 [pieceChar p] (some p) h1 hprom5
        (Or.inr hp)
    obtain ⟨m, hm, hmatch, heq⟩ := make_engine_move_of_resolves hres5
    have hfrom : squareOfIdx
        (wrapSub1 ((String.mk
          (sqChars m1.source ++ sqChars m1.dest ++ [pieceChar p])).data.getD 1 'x'))
        (wrapSubA ((String.mk
          (sqChars m1.source ++ sqChars m1.dest ++ [pieceChar p])).data.getD 0 'x'))
        = m1.source := by
      show squareOfIdx (wrapSub1 (rankChar m1.source)) (wrapSubA (fileChar m1.source))
        = m1.source
      rw [wrapSub1_rankChar, wrapSubA_fileChar, squareOfIdx_roundtrip]
    have hto : squareOfIdx
        (wrapSub1 ((String.mk
          (sqChars m1.source ++ sqChars m1.dest ++ [pieceChar p])).data.getD 3 'x'))
        (wrapSubA ((String.mk
          (sqChars m1.source ++ sqChars m1.dest ++ [pieceChar p])).data.getD 2 'x'))
        = m1.dest := by
      show squareOfIdx (wrapSub1 (rankChar m1.dest)) (wrapSubA (fileChar m1.dest))
        = m1.dest
      rw [wrapSub1_rankChar, wrapSubA_fileChar, squareOfIdx_roundtrip]
    have hgd : (decodedProm
        (String.mk (sqChars m1.source ++ sqChars m1.dest ++ [pieceChar p])).data).getD
          none = some p := by
      rw [hprom5]
      rfl
    obtain ⟨ms, md, mp⟩ := hmatch
    rw [hfrom] at ms
    rw [hto] at md
    rcases mp with h0 | h0
    · rw [hgd] at h0
      exact absurd h0 (by simp)
    · rw [hgd] at h0
      have hmm : m = m1 := ChessMove.eq_of_fields ms md (h0.trans hp.symm)
      rw [hmm] at heq
      exact heq

/-- Witness for C5 on the concrete position where both a7-a8=Q and a7-a8=R
are legal: `a7a8` is accepted, and `a7a8q` resolves to the queen promotion
specifically. -/
theorem c5_promotion_matching_witness :
    ((∃ g', ChessGame.make_engine_move rulesW gameW
        (String.mk (sqChars mvA7A8Q.source ++ sqChars mvA7A8Q.dest)) =
          some (true, g') ∧
      ∃ m ∈ rulesW.legalMoves gameW.game,
        m.source = mvA7A8Q.source ∧ m.dest = mvA7A8Q.dest ∧
        g'.game = rulesW.apply gameW.game m)) ∧
    ChessGame.make_engine_move rulesW gameW
        (String.mk (sqChars mvA7A8Q.source ++ sqChars mvA7A8Q.dest ++
          [pieceChar Piece.queen])) =
      some (true, { gameW with
        game := rulesW.apply gameW.game mvA7A8Q
        message := "Engine moved: " ++
          String.mk (sqChars mvA7A8Q.source ++ sqChars mvA7A8Q.dest ++
            [pieceChar Piece.queen])
        thinking := false }) :=
  c5_promotion_matching rulesW gameW mvA7A8Q mvA7A8R Piece.queen
    (by decide) (by decide) (by decide) (by decide) (by decide) (by decide)
    (by decide)

/-- C8: the background listener sends a string for a line read from the
engine's output iff the line begins with the characters `bestmove` and
splitting it on whitespace yields at least two tokens, and the string sent
is the second whitespace-delimited token, verbatim; every other line (and
every failed read) causes no send, the listener's sends over the whole
stream being exactly the per-line results, in order. -/
theorem c8_listener (ls : List (Except Unit String)) :
    listenerRun ls =
      ls.filterMap (fun r =>
        match r with
        | Except.ok line => processLine line
        | Except.error _ => none) ∧
    ∀ line tok, processLine line = some tok ↔
      ("bestmove".data <+: line.data ∧
        ∃ w rest, splitWhitespace line = w :: tok :: rest) := by
  constructor
  · induction ls with
    | nil => rfl
    | cons r rest ih =>
        cases r with
        | error e => simpa [listenerRun, List.filterMap_cons] using ih
        | ok line =>
            rcases h : processLine line with _ | tok <;>
              simp [listenerRun, List.filterMap_cons, h, ih]
  · intro line tok
    unfold processLine
    by_cases hpre : "bestmove".data.isPrefixOf line.data
    · rw [if_pos hpre]
      constructor
      · intro h
        refine ⟨List.isPrefixOf_iff_prefix.mp hpre, ?_⟩
        rcases hl : splitWhitespace line with _ | ⟨w, _ | ⟨w2, rest⟩⟩ <;>
          rw [hl] at h
        · simp at h
        · simp at h
        · rw [dif_pos (by simp)] at h
          have h2 : some w2 = some tok := h
          injection h2 with h'
          exact ⟨w, rest, by rw [h']⟩
      · rintro ⟨-, w, rest, hl⟩
        have key : ∀ L : List String, L = w :: tok :: rest →
            (if h : 2 ≤ L.length then some (L.get ⟨1, h⟩) else none) = some tok := by
          rintro L rfl
          rw [dif_pos (by simp)]
          rfl
        exact key (splitWhitespace line) hl
    · rw [if_neg hpre]
      constructor
      · intro h
        exact absurd h (by simp)
      · rintro ⟨hp, -⟩
        exact absurd (List.isPrefixOf_iff_prefix.mpr hp) hpre

end ChessTerminal
